import Mathlib

/-!
Verification of the synapse-mcp session-aware OAuth proxy core.

The development shallowly embeds the data model and operations of the
session-aware OAuth proxy (`synapse_mcp.oauth.proxy.SessionAwareOAuthProxy`
and its collaborators), the OAuth factory (`synapse_mcp/oauth/factory.py`)
and the application auth-mode selection (`synapse_mcp/app.py`).

Python dictionaries (insertion-ordered, unique keys) are embedded as
association lists `List (String × α)` where an update of an existing key
replaces the value in place and a new key is appended at the end, exactly
the observable behaviour of a CPython `dict`.
-/

namespace SynapseMCP

/-- Insertion-ordered association list standing for a Python `dict` keyed by
strings: updating an existing key replaces its value in place, a fresh key
is appended at the end. -/
def upsert {α : Type} : List (String × α) → String → α → List (String × α)
  | [], k, v => [(k, v)]
  | p :: rest, k, v => if p.1 = k then (k, v) :: rest else p :: upsert rest k v

/-- Dictionary lookup: value stored at the first entry whose key matches. -/
def lookupKey {α : Type} : List (String × α) → String → Option α
  | [], _ => none
  | p :: rest, k => if p.1 = k then some p.2 else lookupKey rest k

/-- The key sequence of an association list, in insertion order. -/
def keysOf {α : Type} (l : List (String × α)) : List String :=
  l.map Prod.fst

/-- Keys are pairwise distinct (the `dict` invariant). -/
def NodupKeys {α : Type} (l : List (String × α)) : Prop :=
  (keysOf l).Nodup

@[simp] theorem lookupKey_nil {α : Type} (k : String) :
    lookupKey ([] : List (String × α)) k = none := rfl

theorem lookupKey_cons {α : Type} (p : String × α) (l : List (String × α)) (k : String) :
    lookupKey (p :: l) k = if p.1 = k then some p.2 else lookupKey l k := rfl

@[simp] theorem keysOf_nil {α : Type} : keysOf ([] : List (String × α)) = [] := rfl

@[simp] theorem keysOf_cons {α : Type} (p : String × α) (l : List (String × α)) :
    keysOf (p :: l) = p.1 :: keysOf l := rfl

theorem lookupKey_upsert {α : Type} (l : List (String × α)) (k : String) (v : α) (u : String) :
    lookupKey (upsert l k v) u = if k = u then some v else lookupKey l u := by
  induction l with
  | nil =>
    by_cases hu : k = u <;> simp [upsert, lookupKey_cons, hu]
  | cons p rest ih =>
    rw [upsert]
    by_cases hk : p.1 = k
    · rw [if_pos hk, lookupKey_cons, lookupKey_cons]
      by_cases hu : k = u
      · rw [if_pos hu, if_pos hu]
      · rw [if_neg hu, if_neg hu, if_neg (show ¬ p.1 = u from hk ▸ hu)]
    · rw [if_neg hk, lookupKey_cons, lookupKey_cons, ih]
      by_cases hp : p.1 = u
      · rw [if_pos hp, if_pos hp,
            if_neg (show ¬ k = u from fun he => hk (hp.trans he.symm))]
      · rw [if_neg hp, if_neg hp]

theorem keysOf_upsert {α : Type} (l : List (String × α)) (k : String) (v : α) :
    keysOf (upsert l k v) =
      if k ∈ keysOf l then keysOf l else keysOf l ++ [k] := by
  induction l with
  | nil => simp [upsert]
  | cons p rest ih =>
    rw [upsert]
    by_cases hk : p.1 = k
    · rw [if_pos hk, keysOf_cons, keysOf_cons,
          if_pos (List.mem_cons.mpr (Or.inl hk.symm))]
      rw [hk]
    · rw [if_neg hk, keysOf_cons, keysOf_cons, ih]
      by_cases hmem : k ∈ keysOf rest
      · rw [if_pos hmem, if_pos (List.mem_cons.mpr (Or.inr hmem))]
      · have hnotin : k ∉ p.1 :: keysOf rest := by
          intro hin
          rcases List.mem_cons.mp hin with h | h
          · exact hk h.symm
          · exact hmem h
        rw [if_neg hmem, if_neg hnotin, List.cons_append]

theorem nodupKeys_upsert {α : Type} (l : List (String × α)) (k : String) (v : α)
    (h : NodupKeys l) : NodupKeys (upsert l k v) := by
  unfold NodupKeys at *
  rw [keysOf_upsert]
  by_cases hmem : k ∈ keysOf l
  · rwa [if_pos hmem]
  · rw [if_neg hmem, List.nodup_append]
    exact ⟨h, List.nodup_singleton _,
      fun a ha hb => hmem ((List.mem_singleton.mp hb) ▸ ha)⟩

theorem mem_keys_of_lookup {α : Type} (l : List (String × α)) (k : String) (v : α)
    (h : lookupKey l k = some v) : k ∈ keysOf l := by
  induction l with
  | nil => simp [lookupKey] at h
  | cons p rest ih =>
    rw [lookupKey_cons] at h
    rw [keysOf_cons]
    by_cases hp : p.1 = k
    · exact List.mem_cons.mpr (Or.inl hp.symm)
    · rw [if_neg hp] at h
      exact List.mem_cons.mpr (Or.inr (ih h))

theorem lookup_eq_none_of_not_mem_keys {α : Type} (l : List (String × α)) (k : String)
    (h : k ∉ keysOf l) : lookupKey l k = none := by
  induction l with
  | nil => rfl
  | cons p rest ih =>
    rw [keysOf_cons] at h
    have h1 : ¬ p.1 = k := fun he => h (List.mem_cons.mpr (Or.inl he.symm))
    have h2 : k ∉ keysOf rest := fun hm => h (List.mem_cons.mpr (Or.inr hm))
    rw [lookupKey_cons, if_neg h1]
    exact ih h2

theorem mem_of_lookup_eq_some {α : Type} (l : List (String × α)) (k : String) (v : α)
    (h : lookupKey l k = some v) : (k, v) ∈ l := by
  induction l with
  | nil => simp [lookupKey] at h
  | cons p rest ih =>
    rw [lookupKey_cons] at h
    by_cases hp : p.1 = k
    · rw [if_pos hp] at h
      have hv : p.2 = v := Option.some.inj h
      have hpv : p = (k, v) := Prod.ext hp hv
      rw [← hpv]
      exact List.mem_cons_self p rest
    · rw [if_neg hp] at h
      exact List.mem_cons_of_mem _ (ih h)

/-- Association-list extensionality: two dictionaries with the same ordered
key sequence, distinct keys, and identical lookups are equal. -/
theorem assoc_ext {α : Type} (l m : List (String × α))
    (hkeys : keysOf l = keysOf m) (hnodup : NodupKeys l)
    (hlook : ∀ k, lookupKey l k = lookupKey m k) : l = m := by
  induction l generalizing m with
  | nil =>
    cases m with
    | nil => rfl
    | cons q mrest => simp [keysOf] at hkeys
  | cons p rest ih =>
    cases m with
    | nil => simp [keysOf] at hkeys
    | cons q mrest =>
      rw [keysOf_cons, keysOf_cons] at hkeys
      injection hkeys with hk hkeys'
      have hval : p.2 = q.2 := by
        have hl := hlook p.1
        rw [lookupKey_cons, lookupKey_cons, if_pos rfl, if_pos hk.symm] at hl
        exact Option.some.inj hl
      have hpair : p = q := Prod.ext hk hval
      subst hpair
      have hnodup' : NodupKeys rest := by
        unfold NodupKeys at hnodup ⊢
        rw [keysOf_cons] at hnodup
        exact (List.nodup_cons.mp hnodup).2
      have hnotmem : p.1 ∉ keysOf rest := by
        unfold NodupKeys at hnodup
        rw [keysOf_cons] at hnodup
        exact (List.nodup_cons.mp hnodup).1
      have htail : rest = mrest := by
        apply ih mrest hkeys' hnodup'
        intro k
        by_cases hkp : k = p.1
        · subst hkp
          rw [lookup_eq_none_of_not_mem_keys rest p.1 hnotmem,
              lookup_eq_none_of_not_mem_keys mrest p.1 (hkeys' ▸ hnotmem)]
        · have hl := hlook k
          rw [lookupKey_cons, lookupKey_cons,
              if_neg (fun he => hkp he.symm),
              if_neg (fun he => hkp he.symm)] at hl
          exact hl
      rw [htail]

/-! ## User Token Store

The backing store used in production (`create_session_storage`) is not part
of the repository source; the semantics below follow the spec (section 4.3)
and the in-repo `FakeStorage` test double (`tests/test_oauth_proxy.py`),
which is a subject-to-token Python dict. -/

/-- Modelled from the spec: the User Token Store of section 4.3 (the concrete
`create_session_storage` backend is absent from the repository source). A
durable mapping from user subject to the most recent upstream access token,
embedded as an insertion-ordered dictionary. -/
abbrev UserTokenStore := List (String × String)

/-- Modelled from the spec: `set_user_token(subject, token, ttl)` is an
upsert keyed by subject (TTL bookkeeping is not observable in the embedded
claims and is omitted, as in the in-repo FakeStorage double). -/
def set_user_token (store : UserTokenStore) (subject token : String) : UserTokenStore :=
  upsert store subject token

/-- Modelled from the spec: `get_user_token(subject)` returns the stored
token for the subject, if any. -/
def get_user_token (store : UserTokenStore) (subject : String) : Option String :=
  lookupKey store subject

/-- Modelled from the spec: `find_user_by_token(token)` is the reverse
lookup — the first subject whose stored token equals the argument, exactly
the loop of the in-repo FakeStorage double. -/
def find_user_by_token : UserTokenStore → String → Option String
  | [], _ => none
  | p :: rest, t => if p.2 = t then some p.1 else find_user_by_token rest t

/-- Modelled from the spec: `get_all_user_subjects()`. -/
def get_all_user_subjects (store : UserTokenStore) : List String := keysOf store

/-! ## Token-to-user mapping (`_map_new_tokens_to_users`) -/

/-- Modelled from the spec: the body of the per-token loop of
`SessionAwareOAuthProxy._map_new_tokens_to_users` (the proxy module is
absent from the repository source; spec section 4.4): a token already in
the reverse index is skipped; otherwise its claims are decoded without
signature verification and, when a `sub` claim is found, the
subject-to-token mapping is upserted; a token whose claims cannot be
decoded or lack `sub` is skipped without raising. `decode` abstracts
`jwt.decode` followed by extraction of the `sub` claim, returning `none`
for either failure. -/
def mapToken (decode : String → Option String) (store : UserTokenStore)
    (token : String) : UserTokenStore :=
  if (find_user_by_token store token).isSome then store
  else
    match decode token with
    | some sub => set_user_token store sub token
    | none => store

/-- Modelled from the spec: `_map_new_tokens_to_users` re-scans the whole
base-proxy token cache and runs the mapping step on each cached token in
order. -/
def map_new_tokens_to_users (decode : String → Option String)
    (cache : List String) (store : UserTokenStore) : UserTokenStore :=
  cache.foldl (mapToken decode) store

/-- Store invariant maintained by the mapping step: every stored pair was
produced by successful subject extraction, i.e. the stored token decodes to
exactly the stored subject. -/
def WellMapped (decode : String → Option String) (store : UserTokenStore) : Prop :=
  ∀ p ∈ store, decode p.2 = some p.1

instance instDecidableWellMapped (decode : String → Option String)
    (store : UserTokenStore) : Decidable (WellMapped decode store) :=
  List.decidableBAll _ store

instance instDecidableNodupKeys {α : Type} [DecidableEq α]
    (l : List (String × α)) : Decidable (NodupKeys l) :=
  List.nodupDecidable (keysOf l)

theorem find_eq_none_of_decode_none (decode : String → Option String)
    (store : UserTokenStore) (t : String)
    (hwm : WellMapped decode store) (hd : decode t = none) :
    find_user_by_token store t = none := by
  induction store with
  | nil => rfl
  | cons p rest ih =>
    rw [find_user_by_token]
    by_cases hp : p.2 = t
    · exact absurd (hp ▸ hwm p (List.mem_cons_self p rest)) (by simp [hd])
    · rw [if_neg hp]
      exact ih (fun q hq => hwm q (List.mem_cons_of_mem p hq))

theorem decode_of_find_some (decode : String → Option String)
    (store : UserTokenStore) (t w : String)
    (hwm : WellMapped decode store) (h : find_user_by_token store t = some w) :
    decode t = some w := by
  induction store with
  | nil => simp [find_user_by_token] at h
  | cons p rest ih =>
    rw [find_user_by_token] at h
    by_cases hp : p.2 = t
    · rw [if_pos hp] at h
      have := hwm p (List.mem_cons_self p rest)
      rw [hp] at this
      rw [this, h]
    · rw [if_neg hp] at h
      exact ih (fun q hq => hwm q (List.mem_cons_of_mem p hq)) h

theorem get_of_find_some (store : UserTokenStore) (t w : String)
    (hnd : NodupKeys store) (h : find_user_by_token store t = some w) :
    get_user_token store w = some t := by
  induction store with
  | nil => simp [find_user_by_token] at h
  | cons p rest ih =>
    rw [find_user_by_token] at h
    unfold NodupKeys at hnd
    rw [keysOf_cons] at hnd
    obtain ⟨hhead, htail⟩ := List.nodup_cons.mp hnd
    by_cases hp : p.2 = t
    · rw [if_pos hp] at h
      have hw : p.1 = w := Option.some.inj h
      rw [get_user_token, lookupKey_cons, if_pos hw, hp]
    · rw [if_neg hp] at h
      have hrec := ih htail h
      have hwmem : w ∈ keysOf rest := mem_keys_of_lookup rest w t hrec
      have hne : ¬ p.1 = w := fun he => hhead (he ▸ hwmem)
      rw [get_user_token, lookupKey_cons, if_neg hne]
      exact hrec

theorem find_isSome_of_mem (store : UserTokenStore) (u t : String)
    (h : (u, t) ∈ store) : (find_user_by_token store t).isSome := by
  induction store with
  | nil => simp at h
  | cons p rest ih =>
    rw [find_user_by_token]
    by_cases hp : p.2 = t
    · simp [hp]
    · rw [if_neg hp]
      rcases List.mem_cons.mp h with he | hm
      · exact absurd (by rw [← he]) hp
      · exact ih hm

/-- Under the store invariant, the mapping step has the following
subject-centric normal form. -/
theorem mapToken_eq (decode : String → Option String) (store : UserTokenStore)
    (t : String) (hwm : WellMapped decode store) (hnd : NodupKeys store) :
    mapToken decode store t =
      match decode t with
      | none => store
      | some u =>
          if get_user_token store u = some t then store
          else set_user_token store u t := by
  cases hd : decode t with
  | none =>
    rw [mapToken, find_eq_none_of_decode_none decode store t hwm hd]
    simp [hd]
  | some u =>
    rw [mapToken]
    cases hf : find_user_by_token store t with
    | some w =>
      have hu : u = w := by
        have := decode_of_find_some decode store t w hwm hf
        rw [hd] at this
        exact Option.some.inj this
      have hget : get_user_token store u = some t := by
        rw [hu]
        exact get_of_find_some store t w hnd hf
      simp [hget]
    | none =>
      have hget : ¬ get_user_token store u = some t := by
        intro hg
        have := find_isSome_of_mem store u t
          (mem_of_lookup_eq_some store u t hg)
        rw [hf] at this
        simp at this
      simp [hget, hd]

theorem mem_upsert_cases {α : Type} (l : List (String × α)) (k : String) (v : α)
    (p : String × α) (h : p ∈ upsert l k v) : p ∈ l ∨ p = (k, v) := by
  induction l with
  | nil => simp [upsert] at h; exact Or.inr h
  | cons q rest ih =>
    rw [upsert] at h
    by_cases hq : q.1 = k
    · rw [if_pos hq] at h
      rcases List.mem_cons.mp h with he | hm
      · exact Or.inr he
      · exact Or.inl (List.mem_cons_of_mem q hm)
    · rw [if_neg hq] at h
      rcases List.mem_cons.mp h with he | hm
      · exact Or.inl (he ▸ List.mem_cons_self q rest)
      · rcases ih hm with h1 | h2
        · exact Or.inl (List.mem_cons_of_mem q h1)
        · exact Or.inr h2

theorem wellMapped_set (decode : String → Option String) (store : UserTokenStore)
    (u t : String) (hwm : WellMapped decode store) (hd : decode t = some u) :
    WellMapped decode (set_user_token store u t) := by
  intro p hp
  rcases mem_upsert_cases store u t p hp with hm | he
  · exact hwm p hm
  · rw [he]
    exact hd

theorem wellMapped_mapToken (decode : String → Option String) (store : UserTokenStore)
    (t : String) (hwm : WellMapped decode store) :
    WellMapped decode (mapToken decode store t) := by
  rw [mapToken]
  by_cases hf : (find_user_by_token store t).isSome
  · rwa [if_pos hf]
  · rw [if_neg hf]
    cases hd : decode t with
    | none => exact hwm
    | some u => exact wellMapped_set decode store u t hwm hd

theorem nodupKeys_mapToken (decode : String → Option String) (store : UserTokenStore)
    (t : String) (hnd : NodupKeys store) :
    NodupKeys (mapToken decode store t) := by
  rw [mapToken]
  by_cases hf : (find_user_by_token store t).isSome
  · rwa [if_pos hf]
  · rw [if_neg hf]
    cases decode t with
    | none => exact hnd
    | some u => exact nodupKeys_upsert store u t hnd

theorem wellMapped_fold (decode : String → Option String) (cache : List String)
    (store : UserTokenStore) (hwm : WellMapped decode store) :
    WellMapped decode (map_new_tokens_to_users decode cache store) := by
  induction cache generalizing store with
  | nil => exact hwm
  | cons t rest ih =>
    exact ih (mapToken decode store t) (wellMapped_mapToken decode store t hwm)

theorem nodupKeys_fold (decode : String → Option String) (cache : List String)
    (store : UserTokenStore) (hnd : NodupKeys store) :
    NodupKeys (map_new_tokens_to_users decode cache store) := by
  induction cache generalizing store with
  | nil => exact hnd
  | cons t rest ih =>
    exact ih (mapToken decode store t) (nodupKeys_mapToken decode store t hnd)

theorem get_mapToken (decode : String → Option String) (store : UserTokenStore)
    (t : String) (hwm : WellMapped decode store) (hnd : NodupKeys store)
    (w : String) :
    get_user_token (mapToken decode store t) w =
      if decode t = some w then some t else get_user_token store w := by
  rw [mapToken_eq decode store t hwm hnd]
  cases hd : decode t with
  | none => simp
  | some u =>
    show get_user_token (if get_user_token store u = some t then store
          else set_user_token store u t) w =
        if some u = some w then some t else get_user_token store w
    by_cases hw : u = w
    · subst hw
      by_cases hg : get_user_token store u = some t
      · rw [if_pos hg, if_pos rfl]
        exact hg
      · rw [if_neg hg, if_pos rfl, get_user_token, set_user_token,
            lookupKey_upsert, if_pos rfl]
    · have hne : ¬ (some u = some w) := fun he => hw (Option.some.inj he)
      by_cases hg : get_user_token store u = some t
      · rw [if_pos hg, if_neg hne]
      · rw [if_neg hg, if_neg hne, get_user_token, set_user_token,
            lookupKey_upsert, if_neg hw]
        rfl

/-- The last token of the cache, in iteration order, whose decoded subject
is `u`. -/
def lastTokenFor (decode : String → Option String) (cache : List String)
    (u : String) : Option String :=
  cache.foldl (fun acc t => if decode t = some u then some t else acc) none

theorem lastTokenFor_foldl (decode : String → Option String) (cache : List String)
    (u : String) (init : Option String) :
    cache.foldl (fun acc t => if decode t = some u then some t else acc) init =
      ((lastTokenFor decode cache u).rec init some : Option String) := by
  induction cache generalizing init with
  | nil => rfl
  | cons t rest ih =>
    rw [lastTokenFor, List.foldl_cons, List.foldl_cons, ih, ih]
    cases lastTokenFor decode rest u with
    | some s => rfl
    | none =>
      by_cases hd : decode t = some u <;> simp [hd]

theorem lastTokenFor_cons (decode : String → Option String) (t : String)
    (rest : List String) (u : String) :
    lastTokenFor decode (t :: rest) u =
      ((lastTokenFor decode rest u).rec
        (if decode t = some u then some t else none) some : Option String) := by
  rw [lastTokenFor, List.foldl_cons, lastTokenFor_foldl]

theorem get_fold (decode : String → Option String) (cache : List String)
    (store : UserTokenStore) (hwm : WellMapped decode store)
    (hnd : NodupKeys store) (w : String) :
    get_user_token (map_new_tokens_to_users decode cache store) w =
      ((lastTokenFor decode cache w).rec (get_user_token store w) some
        : Option String) := by
  induction cache generalizing store with
  | nil => rfl
  | cons t rest ih =>
    rw [map_new_tokens_to_users, List.foldl_cons]
    have hrec := ih (mapToken decode store t)
      (wellMapped_mapToken decode store t hwm)
      (nodupKeys_mapToken decode store t hnd)
    rw [map_new_tokens_to_users] at hrec
    rw [hrec, get_mapToken decode store t hwm hnd w, lastTokenFor_cons]
    cases lastTokenFor decode rest w with
    | some s => rfl
    | none =>
      by_cases hd : decode t = some w <;> simp [hd]

theorem lastTokenFor_isSome_of_mem (decode : String → Option String)
    (cache : List String) (t u : String) (hmem : t ∈ cache)
    (hd : decode t = some u) : (lastTokenFor decode cache u).isSome := by
  induction cache with
  | nil => simp at hmem
  | cons s rest ih =>
    rw [lastTokenFor_cons]
    cases hl : lastTokenFor decode rest u with
    | some x => rfl
    | none =>
      rcases List.mem_cons.mp hmem with he | hm
      · subst he
        simp [hd]
      · have := ih hm
        rw [hl] at this
        simp at this

theorem mem_keys_set (store : UserTokenStore) (u t w : String)
    (h : w ∈ keysOf store) : w ∈ keysOf (set_user_token store u t) := by
  rw [set_user_token, keysOf_upsert]
  by_cases hm : u ∈ keysOf store
  · rwa [if_pos hm]
  · rw [if_neg hm]
    exact List.mem_append.mpr (Or.inl h)

theorem keys_mapToken_of_covered (decode : String → Option String)
    (store : UserTokenStore) (t : String) (hwm : WellMapped decode store)
    (hnd : NodupKeys store)
    (hcov : ∀ u, decode t = some u → u ∈ keysOf store) :
    keysOf (mapToken decode store t) = keysOf store := by
  rw [mapToken_eq decode store t hwm hnd]
  cases hd : decode t with
  | none => rfl
  | some u =>
    show keysOf (if get_user_token store u = some t then store
        else set_user_token store u t) = keysOf store
    by_cases hg : get_user_token store u = some t
    · rw [if_pos hg]
    · rw [if_neg hg, set_user_token, keysOf_upsert, if_pos (hcov u hd)]

theorem keys_fold_of_covered (decode : String → Option String)
    (cache : List String) (store : UserTokenStore)
    (hwm : WellMapped decode store) (hnd : NodupKeys store)
    (hcov : ∀ t ∈ cache, ∀ u, decode t = some u → u ∈ keysOf store) :
    keysOf (map_new_tokens_to_users decode cache store) = keysOf store := by
  induction cache generalizing store with
  | nil => rfl
  | cons t rest ih =>
    rw [map_new_tokens_to_users, List.foldl_cons]
    have hkeys : keysOf (mapToken decode store t) = keysOf store :=
      keys_mapToken_of_covered decode store t hwm hnd
        (hcov t (List.mem_cons_self t rest))
    have := ih (mapToken decode store t)
      (wellMapped_mapToken decode store t hwm)
      (nodupKeys_mapToken decode store t hnd)
      (fun s hs u hu => hkeys ▸ hcov s (List.mem_cons_of_mem t hs) u hu)
    rw [map_new_tokens_to_users] at this
    rw [this, hkeys]

theorem subject_mapped_after_fold (decode : String → Option String)
    (cache : List String) (store : UserTokenStore)
    (hwm : WellMapped decode store) (hnd : NodupKeys store)
    (t u : String) (hmem : t ∈ cache) (hd : decode t = some u) :
    u ∈ keysOf (map_new_tokens_to_users decode cache store) := by
  have hsome := lastTokenFor_isSome_of_mem decode cache t u hmem hd
  cases hl : lastTokenFor decode cache u with
  | none => rw [hl] at hsome; simp at hsome
  | some s =>
    have hg := get_fold decode cache store hwm hnd u
    rw [hl] at hg
    exact mem_keys_of_lookup _ u s hg

/-- C5: with no new tokens observed between two runs, the second run of
`_map_new_tokens_to_users` leaves the User Token Store exactly as the first
run left it, for every state of the base-proxy token cache and every store
satisfying the mapping invariant. -/
theorem map_new_tokens_to_users_idempotent (decode : String → Option String)
    (cache : List String) (store : UserTokenStore)
    (hwm : WellMapped decode store) (hnd : NodupKeys store) :
    map_new_tokens_to_users decode cache
        (map_new_tokens_to_users decode cache store) =
      map_new_tokens_to_users decode cache store := by
  have hwm1 := wellMapped_fold decode cache store hwm
  have hnd1 := nodupKeys_fold decode cache store hnd
  apply assoc_ext
  · apply keys_fold_of_covered decode cache _ hwm1 hnd1
    intro t ht u hu
    exact subject_mapped_after_fold decode cache store hwm hnd t u ht hu
  · exact nodupKeys_fold decode cache _ hnd1
  · intro k
    have h2 := get_fold decode cache _ hwm1 hnd1 k
    have h1 := get_fold decode cache store hwm hnd k
    show get_user_token (map_new_tokens_to_users decode cache
          (map_new_tokens_to_users decode cache store)) k =
        get_user_token (map_new_tokens_to_users decode cache store) k
    rw [h2, h1]
    cases lastTokenFor decode cache k with
    | some s => rfl
    | none => rfl

/-! ## Current-user lookup, cleanup, and undecodable tokens -/

/-- Modelled from the spec: `get_token_for_current_user` of the
Session-Aware Proxy (proxy module absent from the repository source; spec
section 4.4) returns the most recently mapped (token, subject) pair, or
none when the User Token Store holds no mapping. -/
def get_token_for_current_user (store : UserTokenStore) : Option (String × String) :=
  (store.getLast?).map (fun p => (p.2, p.1))

/-- Modelled from the spec: `cleanup_expired_tokens` of the Session-Aware
Proxy (proxy module absent from the repository source; spec section 4.4):
every token of the base proxy's in-memory cache that is old enough per the
overridable `_is_token_old_enough_to_cleanup` predicate and has no live
subject mapping in the User Token Store is evicted from the cache. -/
def cleanup_expired_tokens (oldEnough : String → Bool) (store : UserTokenStore)
    (cache : List String) : List String :=
  cache.filter (fun t => !(oldEnough t && (find_user_by_token store t).isNone))

theorem cleanup_mem_iff (oldEnough : String → Bool) (store : UserTokenStore)
    (cache : List String) (t : String) (hmem : t ∈ cache) :
    t ∈ cleanup_expired_tokens oldEnough store cache ↔
      ¬(oldEnough t = true ∧ find_user_by_token store t = none) := by
  rw [cleanup_expired_tokens, List.mem_filter]
  constructor
  · rintro ⟨-, hp⟩ ⟨h1, h2⟩
    rw [h1, h2] at hp
    simp at hp
  · intro h
    refine ⟨hmem, ?_⟩
    cases hb : oldEnough t with
    | false => simp [hb]
    | true =>
      cases hf : find_user_by_token store t with
      | none => exact absurd ⟨hb, hf⟩ h
      | some w => simp [hb, hf]

theorem mapToken_decode_none (decode : String → Option String)
    (store : UserTokenStore) (t : String) (hd : decode t = none) :
    mapToken decode store t = store := by
  rw [mapToken]
  by_cases hf : (find_user_by_token store t).isSome
  · rw [if_pos hf]
  · rw [if_neg hf, hd]

end SynapseMCP

namespace SynapseMCP

/-! ## Claim theorems for the token lifecycle -/

/-- C1: `get_token_for_current_user` returns none on an empty User Token
Store, and when exactly one mapping (subject s, token t) exists it returns
exactly the pair (t, s). -/
theorem get_token_for_current_user_spec :
    get_token_for_current_user [] = none ∧
      ∀ s t : String, get_token_for_current_user [(s, t)] = some (t, s) :=
  ⟨rfl, fun _ _ => rfl⟩

/-- C4: after `cleanup_expired_tokens` runs, a token of the base proxy's
in-memory cache is evicted exactly when it is old enough per the
`_is_token_old_enough_to_cleanup` predicate and has no live subject mapping
in the User Token Store; every cached token with a live mapping remains. -/
theorem cleanup_expired_tokens_spec (oldEnough : String → Bool)
    (store : UserTokenStore) (cache : List String) (t : String)
    (hmem : t ∈ cache) :
    (t ∉ cleanup_expired_tokens oldEnough store cache ↔
       oldEnough t = true ∧ find_user_by_token store t = none) ∧
    ((find_user_by_token store t).isSome →
       t ∈ cleanup_expired_tokens oldEnough store cache) := by
  have h := cleanup_mem_iff oldEnough store cache t hmem
  constructor
  · constructor
    · intro hnot
      by_contra hcon
      exact hnot (h.mpr hcon)
    · intro hc hin
      exact (h.mp hin) hc
  · intro hsome
    apply h.mpr
    rintro ⟨-, hnone⟩
    rw [hnone] at hsome
    simp at hsome

/-- Witness for C4 at the spec's concrete example: cache holding token123
(mapped to user-1) and token999 (unmapped), age predicate forced true:
token999 is evicted, token123 remains. -/
theorem cleanup_expired_tokens_spec_witness :
    ("token999" ∉ cleanup_expired_tokens (fun _ => true)
        [("user-1", "token123")] ["token123", "token999"]) ∧
      "token123" ∈ cleanup_expired_tokens (fun _ => true)
        [("user-1", "token123")] ["token123", "token999"] := by
  have h9 := cleanup_expired_tokens_spec (fun _ => true) [("user-1", "token123")]
      ["token123", "token999"] "token999" (by decide)
  have h3 := cleanup_expired_tokens_spec (fun _ => true) [("user-1", "token123")]
      ["token123", "token999"] "token123" (by decide)
  exact ⟨h9.1.mpr (by decide), h3.2 (by decide)⟩

/-- C8: a cached token whose claims cannot be decoded (or lack a sub claim)
produces no write to the User Token Store: the mapping step is a no-op on
it (embedded as a total function, so nothing is raised), and after a full
mapping pass the token is still unmapped. -/
theorem undecodable_token_unmapped (decode : String → Option String)
    (cache : List String) (store : UserTokenStore) (t : String)
    (hwm : WellMapped decode store) (hd : decode t = none) :
    mapToken decode store t = store ∧
      find_user_by_token (map_new_tokens_to_users decode cache store) t = none :=
  ⟨mapToken_decode_none decode store t hd,
   find_eq_none_of_decode_none decode _ t
     (wellMapped_fold decode cache store hwm) hd⟩

/-- Witness for C8: a store already holding user-1/token123, a cache with
token123 and an undecodable token badtok; badtok stays unmapped. -/
theorem undecodable_token_unmapped_witness :
    mapToken (fun t => if t = "token123" then some "user-1" else none)
        [("user-1", "token123")] "badtok" = [("user-1", "token123")] ∧
      find_user_by_token
        (map_new_tokens_to_users
          (fun t => if t = "token123" then some "user-1" else none)
          ["token123", "badtok"] [("user-1", "token123")]) "badtok" = none :=
  undecodable_token_unmapped
    (fun t => if t = "token123" then some "user-1" else none)
    ["token123", "badtok"] [("user-1", "token123")] "badtok"
    (by decide) (by decide)

/-- Witness for C5: the idempotence theorem applied to a two-token cache
over an initially empty store. -/
theorem map_new_tokens_to_users_idempotent_witness :
    map_new_tokens_to_users
        (fun t => if t = "token123" then some "user-1" else none)
        ["token123", "token999"]
        (map_new_tokens_to_users
          (fun t => if t = "token123" then some "user-1" else none)
          ["token123", "token999"] []) =
      map_new_tokens_to_users
        (fun t => if t = "token123" then some "user-1" else none)
        ["token123", "token999"] [] :=
  map_new_tokens_to_users_idempotent
    (fun t => if t = "token123" then some "user-1" else none)
    ["token123", "token999"] [] (by decide) (by decide)

/-! ## Client registry and registration -/

theorem mem_keys_upsert_mono {α : Type} (l : List (String × α)) (k u : String)
    (v : α) (h : u ∈ keysOf l) : u ∈ keysOf (upsert l k v) := by
  rw [keysOf_upsert]
  by_cases hm : k ∈ keysOf l
  · rwa [if_pos hm]
  · rw [if_neg hm]
    exact List.mem_append.mpr (Or.inl h)

theorem mem_keys_upsert_self {α : Type} (l : List (String × α)) (k : String)
    (v : α) : k ∈ keysOf (upsert l k v) := by
  rw [keysOf_upsert]
  by_cases hm : k ∈ keysOf l
  · rwa [if_pos hm]
  · rw [if_neg hm]
    exact List.mem_append.mpr (Or.inr (List.mem_singleton.mpr rfl))

theorem mem_upsert_self {α : Type} (l : List (String × α)) (k : String) (v : α) :
    (k, v) ∈ upsert l k v := by
  induction l with
  | nil => exact List.mem_singleton.mpr rfl
  | cons p rest ih =>
    rw [upsert]
    by_cases hp : p.1 = k
    · rw [if_pos hp]
      exact List.mem_cons_self _ _
    · rw [if_neg hp]
      exact List.mem_cons_of_mem p ih

theorem mem_keys_foldl_upsert_mono {α : Type} (f : α → String) (l : List α)
    (init : List (String × α)) (u : String) (h : u ∈ keysOf init) :
    u ∈ keysOf (l.foldl (fun t r => upsert t (f r) r) init) := by
  induction l generalizing init with
  | nil => exact h
  | cons r rest ih => exact ih _ (mem_keys_upsert_mono _ _ _ _ h)

theorem mem_keys_foldl_upsert_of_mem {α : Type} (f : α → String) (l : List α)
    (init : List (String × α)) (r : α) (h : r ∈ l) :
    f r ∈ keysOf (l.foldl (fun t x => upsert t (f x) x) init) := by
  induction l generalizing init with
  | nil => simp at h
  | cons x rest ih =>
    rcases List.mem_cons.mp h with he | hm
    · subst he
      exact mem_keys_foldl_upsert_mono f rest _ _ (mem_keys_upsert_self _ _ _)
    · exact ih _ hm

/-- OAuth client registration record, after the shape of
`OAuthClientInformationFull` as exercised by the in-repo tests;
`grant_types` is the field normalized at registration. -/
structure OAuthClientInformation where
  client_id : String
  client_secret : Option String
  redirect_uris : List String
  grant_types : List String
deriving DecidableEq

/-- Modelled from the spec: the Client Registry durable store (the
file-backed `create_client_registry` module is absent from the repository
source; spec section 4.2): a mapping from client_id to registration
record. -/
abbrev ClientRegistry := List (String × OAuthClientInformation)

/-- Modelled from the spec: `save(registration)` is an idempotent upsert
keyed by client_id. -/
def registry_save (reg : ClientRegistry) (r : OAuthClientInformation) :
    ClientRegistry :=
  upsert reg r.client_id r

/-- Modelled from the spec: `load_all()` reads the entire persisted set. -/
def registry_load_all (reg : ClientRegistry) : List OAuthClientInformation :=
  reg.map (·.2)

/-- Modelled from the spec: grant_types normalization at registration (spec
section 4.2): any client requesting authorization_code silently also
receives refresh_token if absent, before the record is persisted or
returned. -/
def normalize_grant_types (r : OAuthClientInformation) : OAuthClientInformation :=
  if "authorization_code" ∈ r.grant_types ∧ "refresh_token" ∉ r.grant_types then
    { r with grant_types := r.grant_types ++ ["refresh_token"] }
  else r

/-- The base proxy's in-memory client table, keyed by client_id. -/
abbrev ClientTable := List (String × OAuthClientInformation)

/-- Modelled from the spec: at construction the Session-Aware Proxy first
loads all persisted registrations and then merges the static client list
into the base proxy's in-memory client table, statics taking precedence on
conflict (proxy module absent from the repository source; spec sections 4.2
and 4.4). -/
def load_client_table (reg : ClientRegistry)
    (statics : List OAuthClientInformation) : ClientTable :=
  statics.foldl (fun t r => upsert t r.client_id r)
    ((registry_load_all reg).foldl (fun t r => upsert t r.client_id r) [])

/-- Modelled from the spec: `register_client(info)` delegates to base
registration (installing the record in the in-memory table) and persists
the normalized record via the Client Registry; the normalized record is
returned. Result: (returned record, new table, new registry). -/
def register_client (table : ClientTable) (reg : ClientRegistry)
    (info : OAuthClientInformation) :
    OAuthClientInformation × ClientTable × ClientRegistry :=
  let r := normalize_grant_types info
  (r, upsert table r.client_id r, registry_save reg r)

theorem normalize_client_id (r : OAuthClientInformation) :
    (normalize_grant_types r).client_id = r.client_id := by
  rw [normalize_grant_types]
  split <;> rfl

/-- C2: a client id registered through register_client against a given
registry persistence location is present in the in-memory client table of
any proxy subsequently constructed over that registry: registrations
survive process restarts. -/
theorem registered_client_survives_restart (table : ClientTable)
    (reg : ClientRegistry) (info : OAuthClientInformation)
    (statics : List OAuthClientInformation) :
    info.client_id ∈
      keysOf (load_client_table (register_client table reg info).2.2 statics) := by
  have hr : normalize_grant_types info ∈
      registry_load_all (register_client table reg info).2.2 := by
    refine List.mem_map.mpr ⟨((normalize_grant_types info).client_id,
      normalize_grant_types info), ?_, rfl⟩
    exact mem_upsert_self reg _ _
  have hkey := mem_keys_foldl_upsert_of_mem (fun y => y.client_id)
    (registry_load_all (register_client table reg info).2.2) []
    (normalize_grant_types info) hr
  have hkey2 : info.client_id ∈
      keysOf ((registry_load_all (register_client table reg info).2.2).foldl
        (fun t r => upsert t r.client_id r) []) := by
    rw [← normalize_client_id info]
    exact hkey
  exact mem_keys_foldl_upsert_mono _ statics _ _ hkey2

/-- C6: every client descriptor of the static-client configuration is
present in the in-memory client table right after construction, without
any registration call. -/
theorem static_client_loaded (reg : ClientRegistry)
    (statics : List OAuthClientInformation) (r : OAuthClientInformation)
    (h : r ∈ statics) :
    r.client_id ∈ keysOf (load_client_table reg statics) :=
  mem_keys_foldl_upsert_of_mem (fun y => y.client_id) statics _ r h

/-- Witness for C6 at the spec's example static client descriptor. -/
theorem static_client_loaded_witness :
    "static-client" ∈ keysOf (load_client_table []
      [⟨"static-client", none, ["https://claude.ai/api/mcp/auth_callback"], []⟩]) :=
  static_client_loaded []
    [⟨"static-client", none, ["https://claude.ai/api/mcp/auth_callback"], []⟩]
    ⟨"static-client", none, ["https://claude.ai/api/mcp/auth_callback"], []⟩
    (List.mem_singleton.mpr rfl)

/-- C7: registering a client whose grant_types contain authorization_code
but not refresh_token adds refresh_token before the record is persisted or
returned: the returned record carries both grant types and is exactly what
is stored in the registry and in the in-memory client table. -/
theorem grant_types_normalized (table : ClientTable) (reg : ClientRegistry)
    (info : OAuthClientInformation)
    (hac : "authorization_code" ∈ info.grant_types)
    (hrt : "refresh_token" ∉ info.grant_types) :
    "authorization_code" ∈ (register_client table reg info).1.grant_types ∧
      "refresh_token" ∈ (register_client table reg info).1.grant_types ∧
      lookupKey (register_client table reg info).2.2 info.client_id
        = some (register_client table reg info).1 ∧
      lookupKey (register_client table reg info).2.1 info.client_id
        = some (register_client table reg info).1 := by
  have hnorm : normalize_grant_types info =
      { info with grant_types := info.grant_types ++ ["refresh_token"] } := by
    rw [normalize_grant_types, if_pos ⟨hac, hrt⟩]
  have hcid : (normalize_grant_types info).client_id = info.client_id :=
    normalize_client_id info
  refine ⟨?_, ?_, ?_, ?_⟩
  · show "authorization_code" ∈ (normalize_grant_types info).grant_types
    rw [hnorm]
    exact List.mem_append.mpr (Or.inl hac)
  · show "refresh_token" ∈ (normalize_grant_types info).grant_types
    rw [hnorm]
    exact List.mem_append.mpr (Or.inr (List.mem_singleton.mpr rfl))
  · show lookupKey (upsert reg (normalize_grant_types info).client_id
        (normalize_grant_types info)) info.client_id
      = some (normalize_grant_types info)
    rw [lookupKey_upsert, if_pos hcid]
  · show lookupKey (upsert table (normalize_grant_types info).client_id
        (normalize_grant_types info)) info.client_id
      = some (normalize_grant_types info)
    rw [lookupKey_upsert, if_pos hcid]

/-- Witness for C7 at the registration used by the in-repo persistence
test: client-xyz requesting only authorization_code. -/
theorem grant_types_normalized_witness :
    "authorization_code" ∈ (register_client [] []
        ⟨"client-xyz", some "secret", ["http://127.0.0.1:5000/callback"],
          ["authorization_code"]⟩).1.grant_types ∧
      "refresh_token" ∈ (register_client [] []
        ⟨"client-xyz", some "secret", ["http://127.0.0.1:5000/callback"],
          ["authorization_code"]⟩).1.grant_types ∧
      lookupKey (register_client [] []
        ⟨"client-xyz", some "secret", ["http://127.0.0.1:5000/callback"],
          ["authorization_code"]⟩).2.2 "client-xyz"
        = some (register_client [] []
        ⟨"client-xyz", some "secret", ["http://127.0.0.1:5000/callback"],
          ["authorization_code"]⟩).1 ∧
      lookupKey (register_client [] []
        ⟨"client-xyz", some "secret", ["http://127.0.0.1:5000/callback"],
          ["authorization_code"]⟩).2.1 "client-xyz"
        = some (register_client [] []
        ⟨"client-xyz", some "secret", ["http://127.0.0.1:5000/callback"],
          ["authorization_code"]⟩).1 :=
  grant_types_normalized [] []
    ⟨"client-xyz", some "secret", ["http://127.0.0.1:5000/callback"],
      ["authorization_code"]⟩ (by decide) (by decide)

/-! ## Callback sanitization -/

theorem lookup_filter_out (l : List (String × String)) (k : String) :
    lookupKey (l.filter (fun p => decide (p.1 ≠ k))) k = none := by
  induction l with
  | nil => rfl
  | cons p rest ih =>
    by_cases hp : p.1 = k
    · rw [List.filter_cons, if_neg (by simp [hp])]
      exact ih
    · rw [List.filter_cons, if_pos (by simp [hp]), lookupKey_cons, if_neg hp]
      exact ih

theorem lookup_filter_other (l : List (String × String)) (k u : String)
    (h : ¬ u = k) :
    lookupKey (l.filter (fun p => decide (p.1 ≠ k))) u = lookupKey l u := by
  induction l with
  | nil => rfl
  | cons p rest ih =>
    by_cases hp : p.1 = k
    · have hpu : ¬ p.1 = u := fun he => h (he.symm.trans hp)
      rw [List.filter_cons, if_neg (by simp [hp]), ih, lookupKey_cons, if_neg hpu]
    · rw [List.filter_cons, if_pos (by simp [hp]), lookupKey_cons, lookupKey_cons,
          ih]

/-- A redirect location: a base URL together with its parsed query
parameters in order. -/
structure RedirectLocation where
  base : String
  params : List (String × String)
deriving DecidableEq

/-- Modelled from the spec: the state sanitization of the
`_handle_idp_callback` override (proxy module absent from the repository
source; spec section 4.4): when the redirect produced by the base callback
handler carries the literal string None as its state query parameter — the
base layer's stringification of an absent state — the state parameter is
stripped entirely; otherwise the parameters pass through unchanged. -/
def sanitize_callback_params (params : List (String × String)) :
    List (String × String) :=
  if lookupKey params "state" = some "None" then
    params.filter (fun p => decide (p.1 ≠ "state"))
  else params

/-- Modelled from the spec: the `_handle_idp_callback` override delegates to
the base handler and post-processes only the query parameters of the
resulting redirect location. -/
def handle_idp_callback (base_response : RedirectLocation) : RedirectLocation :=
  { base_response with params := sanitize_callback_params base_response.params }

/-- C3: for every redirect produced by the base callback handler, the
override yields: when the state query parameter is the literal string None,
a location with the state parameter absent entirely and every other
parameter (and the base URL) preserved; when state is present with any
other value, the location unchanged. -/
theorem handle_idp_callback_spec (loc : RedirectLocation) :
    (lookupKey loc.params "state" = some "None" →
       (handle_idp_callback loc).base = loc.base ∧
       lookupKey (handle_idp_callback loc).params "state" = none ∧
       (handle_idp_callback loc).params =
         loc.params.filter (fun p => decide (p.1 ≠ "state")) ∧
       ∀ k, ¬ k = "state" →
         lookupKey (handle_idp_callback loc).params k = lookupKey loc.params k) ∧
    (∀ v, lookupKey loc.params "state" = some v → ¬ v = "None" →
       handle_idp_callback loc = loc) := by
  constructor
  · intro hst
    refine ⟨rfl, ?_, ?_, ?_⟩
    · show lookupKey (sanitize_callback_params loc.params) "state" = none
      rw [sanitize_callback_params, if_pos hst]
      exact lookup_filter_out loc.params "state"
    · show sanitize_callback_params loc.params =
        loc.params.filter (fun p => decide (p.1 ≠ "state"))
      rw [sanitize_callback_params, if_pos hst]
    · intro k hk
      show lookupKey (sanitize_callback_params loc.params) k = lookupKey loc.params k
      rw [sanitize_callback_params, if_pos hst]
      exact lookup_filter_other loc.params "state" k hk
  · intro v hv hne
    have hcond : ¬ lookupKey loc.params "state" = some "None" := by
      rw [hv]
      intro he
      exact hne (Option.some.inj he)
    show ({ loc with params := sanitize_callback_params loc.params }
      : RedirectLocation) = loc
    rw [sanitize_callback_params, if_neg hcond]

/-- Witness for C3 at the spec's two concrete callback redirects. -/
theorem handle_idp_callback_spec_witness :
    lookupKey (handle_idp_callback
        ⟨"http://app/callback", [("code", "new-token"), ("state", "None")]⟩).params
      "state" = none ∧
    lookupKey (handle_idp_callback
        ⟨"http://app/callback", [("code", "new-token"), ("state", "None")]⟩).params
      "code" = some "new-token" ∧
    handle_idp_callback
        ⟨"http://app/callback", [("code", "token"), ("state", "valid123")]⟩ =
      ⟨"http://app/callback", [("code", "token"), ("state", "valid123")]⟩ := by
  have h1 := (handle_idp_callback_spec
    ⟨"http://app/callback", [("code", "new-token"), ("state", "None")]⟩).1
    (by decide)
  have h2 := (handle_idp_callback_spec
    ⟨"http://app/callback", [("code", "token"), ("state", "valid123")]⟩).2
    "valid123" (by decide) (by decide)
  refine ⟨h1.2.1, ?_, h2⟩
  rw [h1.2.2.2 "code" (by decide)]
  decide

/-! ## OAuth factory (`synapse_mcp/oauth/factory.py`) and auth-mode
selection (`synapse_mcp/app.py`) -/

/-- An environment mapping, as a partial map from variable name to value. -/
abbrev Env : Type := String → Option String

/-- Python truthiness of an `os.environ.get` result: missing or empty
string is falsy. -/
def truthy : Option String → Bool
  | none => false
  | some s => decide (¬ s = "")

/-- One entry of `OAUTH_ENDPOINTS_BY_ENV` (factory.py). -/
structure OAuthEndpoints where
  jwks_uri : String
  issuer : String
  token_endpoint : String
  authorization_endpoint : String
deriving DecidableEq

/-- The prod entry of `OAUTH_ENDPOINTS_BY_ENV` (factory.py). -/
def prodEndpoints : OAuthEndpoints where
  jwks_uri := "https://repo-prod.prod.sagebase.org/auth/v1/oauth2/jwks"
  issuer := "https://repo-prod.prod.sagebase.org/auth/v1"
  token_endpoint := "https://repo-prod.prod.sagebase.org/auth/v1/oauth2/token"
  authorization_endpoint := "https://signin.synapse.org"

/-- The staging entry of `OAUTH_ENDPOINTS_BY_ENV` (factory.py). -/
def stagingEndpoints : OAuthEndpoints where
  jwks_uri := "https://repo-staging.prod.sagebase.org/auth/v1/oauth2/jwks"
  issuer := "https://repo-staging.prod.sagebase.org/auth/v1"
  token_endpoint := "https://repo-staging.prod.sagebase.org/auth/v1/oauth2/token"
  authorization_endpoint := "https://signin.synapse.org"

/-- The dev entry of `OAUTH_ENDPOINTS_BY_ENV` (factory.py). -/
def devEndpoints : OAuthEndpoints where
  jwks_uri := "https://repo-dev.dev.sagebase.org/auth/v1/oauth2/jwks"
  issuer := "https://repo-dev.dev.sagebase.org/auth/v1"
  token_endpoint := "https://repo-dev.dev.sagebase.org/auth/v1/oauth2/token"
  authorization_endpoint := "https://dev-signin.synapse.org"

/-- The `OAUTH_ENDPOINTS_BY_ENV` dictionary of factory.py, as a partial
map over its three keys. -/
def OAUTH_ENDPOINTS_BY_ENV (k : String) : Option OAuthEndpoints :=
  if k = "prod" then some prodEndpoints
  else if k = "staging" then some stagingEndpoints
  else if k = "dev" then some devEndpoints
  else none

/-- Modelled from the spec: `should_skip_oauth` from the oauth config module
(absent from the repository source): OAuth configuration is skipped when a
truthy SYNAPSE_PAT is present, matching the factory's printed message. -/
def should_skip_oauth (env : Env) : Bool :=
  truthy (env "SYNAPSE_PAT")

/-- OAuth settings loaded from the environment. -/
structure OAuthSettings where
  client_id : String
  client_secret : String
  server_url : String
deriving DecidableEq

/-- Modelled from the spec: `load_oauth_settings` from the oauth config
module (absent from the repository source): settings exist exactly when
both SYNAPSE_OAUTH_CLIENT_ID and SYNAPSE_OAUTH_CLIENT_SECRET are truthy;
the proxy's own base URL is a further configuration input with a local
default. -/
def load_oauth_settings (env : Env) : Option OAuthSettings :=
  match env "SYNAPSE_OAUTH_CLIENT_ID", env "SYNAPSE_OAUTH_CLIENT_SECRET" with
  | some cid, some sec =>
      if cid = "" ∨ sec = "" then none
      else some ⟨cid, sec, (env "MCP_SERVER_URL").getD "http://127.0.0.1:9000"⟩
  | _, _ => none

/-- The verifier constructed by the factory (`SynapseJWTVerifier(...)` in
factory.py), recorded by its configuration. -/
structure SynapseJWTVerifier where
  jwks_uri : String
  issuer : String
  audience : String
  algorithm : String
  required_scopes : List String
deriving DecidableEq

/-- The proxy constructed by the factory (`SessionAwareOAuthProxy(...)` in
factory.py), recorded by its configuration. -/
structure SessionAwareOAuthProxyConfig where
  upstream_authorization_endpoint : String
  upstream_token_endpoint : String
  upstream_client_id : String
  upstream_client_secret : String
  redirect_path : String
  token_verifier : SynapseJWTVerifier
  base_url : String
deriving DecidableEq

/-- Python str.lower as used by factory.py, embedded character by
character. -/
def pyLower (s : String) : String :=
  String.mk (s.data.map Char.toLower)

/-- The endpoint-selection lines of factory.py: the lowercased SYNAPSE_ENV
value (defaulting to prod when the variable is absent) indexes
OAUTH_ENDPOINTS_BY_ENV, with dictionary-get fallback to the prod entry. -/
def selected_endpoints (env : Env) : OAuthEndpoints :=
  (OAUTH_ENDPOINTS_BY_ENV (pyLower ((env "SYNAPSE_ENV").getD "prod"))).getD
    prodEndpoints

/-- `create_oauth_proxy` of factory.py: skip when SYNAPSE_PAT is set,
return none when OAuth settings are missing, otherwise build the proxy over
the endpoints selected by SYNAPSE_ENV and an RS256 verifier requiring
openid and view with audience the configured client id. -/
def create_oauth_proxy (env : Env) : Option SessionAwareOAuthProxyConfig :=
  if should_skip_oauth env then none
  else
    match load_oauth_settings env with
    | none => none
    | some settings =>
        some
          { upstream_authorization_endpoint :=
              (selected_endpoints env).authorization_endpoint
            upstream_token_endpoint := (selected_endpoints env).token_endpoint
            upstream_client_id := settings.client_id
            upstream_client_secret := settings.client_secret
            redirect_path := "/oauth/callback"
            token_verifier :=
              { jwks_uri := (selected_endpoints env).jwks_uri
                issuer := (selected_endpoints env).issuer
                audience := settings.client_id
                algorithm := "RS256"
                required_scopes := ["openid", "view"] }
            base_url := settings.server_url }

/-- The three authentication outcomes of module initialization (app.py):
OAuth mode (recording whether the PAT-ignored warning fires), PAT mode, or
the ValueError raised rather than starting an unauthenticated server. -/
inductive AuthMode : Type
  | oauthMode (patWarning : Bool)
  | patMode
  | noAuthFailure
deriving DecidableEq

/-- The module-initialization mode selection of app.py (lines 62 to 157):
OAuth when `create_oauth_proxy()` returned a proxy and both OAuth
credential variables are truthy, recording the PAT-ignored warning when
SYNAPSE_PAT is also set; else PAT mode when SYNAPSE_PAT is truthy; else
the ValueError outcome. -/
def select_auth_mode (env : Env) : AuthMode :=
  let auth := create_oauth_proxy env
  let has_pat := truthy (env "SYNAPSE_PAT")
  let has_oauth := truthy (env "SYNAPSE_OAUTH_CLIENT_ID")
      && truthy (env "SYNAPSE_OAUTH_CLIENT_SECRET")
  if auth.isSome && has_oauth then AuthMode.oauthMode has_pat
  else if has_pat then AuthMode.patMode
  else AuthMode.noAuthFailure

/-- C10: whenever create_oauth_proxy yields a proxy, the upstream endpoints
are exactly those selected by the lowercased SYNAPSE_ENV value — with
silent fallback to the production endpoints for any value other than prod,
staging or dev, including absence — and the JWT verifier is always built
with algorithm RS256, required scopes openid and view, and audience equal
to the configured client id. -/
theorem create_oauth_proxy_spec (env : Env)
    (proxy : SessionAwareOAuthProxyConfig)
    (h : create_oauth_proxy env = some proxy) :
    proxy.token_verifier.algorithm = "RS256" ∧
    proxy.token_verifier.required_scopes = ["openid", "view"] ∧
    proxy.token_verifier.audience = proxy.upstream_client_id ∧
    (proxy.upstream_authorization_endpoint =
        (selected_endpoints env).authorization_endpoint ∧
      proxy.upstream_token_endpoint = (selected_endpoints env).token_endpoint ∧
      proxy.token_verifier.jwks_uri = (selected_endpoints env).jwks_uri ∧
      proxy.token_verifier.issuer = (selected_endpoints env).issuer) ∧
    (¬ pyLower ((env "SYNAPSE_ENV").getD "prod") = "prod" →
      ¬ pyLower ((env "SYNAPSE_ENV").getD "prod") = "staging" →
      ¬ pyLower ((env "SYNAPSE_ENV").getD "prod") = "dev" →
      selected_endpoints env = prodEndpoints) := by
  rw [create_oauth_proxy] at h
  by_cases hskip : should_skip_oauth env = true
  · rw [if_pos hskip] at h
    simp at h
  · rw [if_neg hskip] at h
    cases hset : load_oauth_settings env with
    | none =>
      rw [hset] at h
      simp at h
    | some settings =>
      rw [hset] at h
      have hp := (Option.some.inj h).symm
      subst hp
      refine ⟨rfl, rfl, rfl, ⟨rfl, rfl, rfl, rfl⟩, ?_⟩
      intro h1 h2 h3
      rw [selected_endpoints, OAUTH_ENDPOINTS_BY_ENV,
          if_neg h1, if_neg h2, if_neg h3]
      rfl

/-- Witness for C10: an environment with OAuth credentials and an unknown
SYNAPSE_ENV value Bogus: the factory yields a proxy with the RS256 verifier
and the selection falls back to the production endpoints. -/
theorem create_oauth_proxy_spec_witness :
    (SessionAwareOAuthProxyConfig.mk
        "https://signin.synapse.org"
        "https://repo-prod.prod.sagebase.org/auth/v1/oauth2/token"
        "client-123" "secret-456" "/oauth/callback"
        (SynapseJWTVerifier.mk
          "https://repo-prod.prod.sagebase.org/auth/v1/oauth2/jwks"
          "https://repo-prod.prod.sagebase.org/auth/v1"
          "client-123" "RS256" ["openid", "view"])
        "http://127.0.0.1:9000").token_verifier.algorithm = "RS256" ∧
    selected_endpoints (fun k =>
        if k = "SYNAPSE_OAUTH_CLIENT_ID" then some "client-123"
        else if k = "SYNAPSE_OAUTH_CLIENT_SECRET" then some "secret-456"
        else if k = "SYNAPSE_ENV" then some "Bogus"
        else none) = prodEndpoints := by
  have h := create_oauth_proxy_spec
    (fun k =>
      if k = "SYNAPSE_OAUTH_CLIENT_ID" then some "client-123"
      else if k = "SYNAPSE_OAUTH_CLIENT_SECRET" then some "secret-456"
      else if k = "SYNAPSE_ENV" then some "Bogus"
      else none)
    (SessionAwareOAuthProxyConfig.mk
      "https://signin.synapse.org"
      "https://repo-prod.prod.sagebase.org/auth/v1/oauth2/token"
      "client-123" "secret-456" "/oauth/callback"
      (SynapseJWTVerifier.mk
        "https://repo-prod.prod.sagebase.org/auth/v1/oauth2/jwks"
        "https://repo-prod.prod.sagebase.org/auth/v1"
        "client-123" "RS256" ["openid", "view"])
      "http://127.0.0.1:9000")
    (by decide)
  exact ⟨h.1, h.2.2.2.2 (by decide) (by decide) (by decide)⟩

/-- C9: module initialization selects exactly one authentication mode as a
total function of the environment: OAuth mode exactly when
create_oauth_proxy returned a proxy and both OAuth credential variables are
set, with the PAT-ignored warning recorded exactly when SYNAPSE_PAT is also
set; otherwise PAT mode exactly when SYNAPSE_PAT is set; otherwise the
ValueError outcome. -/
theorem select_auth_mode_spec (env : Env) :
    (select_auth_mode env = AuthMode.oauthMode (truthy (env "SYNAPSE_PAT")) ↔
       (create_oauth_proxy env).isSome = true ∧
       (truthy (env "SYNAPSE_OAUTH_CLIENT_ID")
         && truthy (env "SYNAPSE_OAUTH_CLIENT_SECRET")) = true) ∧
    (select_auth_mode env = AuthMode.patMode ↔
       ¬((create_oauth_proxy env).isSome = true ∧
         (truthy (env "SYNAPSE_OAUTH_CLIENT_ID")
           && truthy (env "SYNAPSE_OAUTH_CLIENT_SECRET")) = true) ∧
       truthy (env "SYNAPSE_PAT") = true) ∧
    (select_auth_mode env = AuthMode.noAuthFailure ↔
       ¬((create_oauth_proxy env).isSome = true ∧
         (truthy (env "SYNAPSE_OAUTH_CLIENT_ID")
           && truthy (env "SYNAPSE_OAUTH_CLIENT_SECRET")) = true) ∧
       ¬ truthy (env "SYNAPSE_PAT") = true) := by
  rw [select_auth_mode]
  cases ha : (create_oauth_proxy env).isSome <;>
    cases hp : truthy (env "SYNAPSE_PAT") <;>
      cases ho1 : truthy (env "SYNAPSE_OAUTH_CLIENT_ID") <;>
        cases ho2 : truthy (env "SYNAPSE_OAUTH_CLIENT_SECRET") <;>
          simp [ha, hp, ho1, ho2]

end SynapseMCP
